import Mathlib

/-
  Verification of the openwhisk-bench benchmark execution engine.

  The definitions below are a shallow embedding of the Python sources
  `openwhisk_bench/metrics.py` and `openwhisk_bench/runner.py`:
  JSON values become an inductive type, Python dictionaries become
  association lists (with the "last insertion wins" semantics of a dict
  built from a sequence of pairs), Python exceptions become an explicit
  `Except PyExc` result, and numeric values are modelled as exact
  rationals.  The HTTP transport and the wall clock are modelled as an
  oracle (`Exchange`) supplying the responses and elapsed times that the
  benchmark would observe.
-/

namespace OWBench

/-- A JSON value, as produced by `response.json()` in the Python source. -/
inductive JsonVal where
  | null
  | bool (b : Bool)
  | num (q : ℚ)
  | str (s : String)
  | arr (elems : List JsonVal)
  | obj (fields : List (String × JsonVal))

/-- The Python exceptions that the embedded code can raise. -/
inductive PyExc where
  | valueError
  | keyError
  | typeError
  | attributeError
  | zeroDivisionError
  | statisticsError
deriving DecidableEq, Repr

/-- Lookup in an association list with "last occurrence wins", matching the
value found in a Python dict that was built by inserting the pairs in order
(later duplicate keys overwrite earlier ones, as in `json.loads` and in dict
comprehensions). -/
def lookupLast (k : String) : List (String × JsonVal) → Option JsonVal
  | [] => none
  | (k', v) :: rest =>
    match lookupLast k rest with
    | some v' => some v'
    | none => if k' = k then some v else none

/-- Lookup of a string key in a list of (python-key, value) pairs whose keys
may be arbitrary JSON values; only a `.str` key can equal a string key, and
the last occurrence wins (dict insertion semantics). -/
def strKeyGetLast (s : String) : List (JsonVal × JsonVal) → Option JsonVal
  | [] => none
  | (k, v) :: rest =>
    match strKeyGetLast s rest with
    | some v' => some v'
    | none =>
      match k with
      | .str s' => if s' = s then some v else none
      | _ => none

/-- One step of the dict comprehension
`{item['key']: item['value'] for item in ...}` (metrics.py line 12):
subscripting a non-dict raises TypeError, a dict without the subscripted
key raises KeyError (`item['key']` is evaluated before `item['value']`),
and an unhashable key (list or dict) raises TypeError at insertion. -/
def annotEntry : JsonVal → Except PyExc (JsonVal × JsonVal)
  | .obj fs =>
    match lookupLast "key" fs with
    | none => .error .keyError
    | some k =>
      match lookupLast "value" fs with
      | none => .error .keyError
      | some v =>
        match k with
        | .arr _ => .error .typeError
        | .obj _ => .error .typeError
        | _ => .ok (k, v)
  | _ => .error .typeError

/-- The pairs inserted by the dict comprehension of metrics.py line 12,
in iteration order; the first exception raised aborts the comprehension. -/
def annotDict : List JsonVal → Except PyExc (List (JsonVal × JsonVal))
  | [] => .ok []
  | it :: rest =>
    match annotEntry it with
    | .error e => .error e
    | .ok p =>
      match annotDict rest with
      | .error e => .error e
      | .ok ps => .ok (p :: ps)

/-- Iterating a JSON value with `for item in x`: a JSON array yields its
elements; an empty string or empty object yields nothing; a non-empty string
or object yields strings, whose subscripting by `'key'` then raises
TypeError; numbers, booleans and null are not iterable (TypeError). -/
def iterItems : JsonVal → Except PyExc (List JsonVal)
  | .arr xs => .ok xs
  | .str s => if s.length = 0 then .ok [] else .error .typeError
  | .obj fs => if fs.length = 0 then .ok [] else .error .typeError
  | _ => .error .typeError

/-- The key-to-value mapping built from `json_response.get('annotations', [])`
by metrics.py line 12, or the exception that building it raises. -/
def annotPairs (fields : List (String × JsonVal)) :
    Except PyExc (List (JsonVal × JsonVal)) :=
  match iterItems ((lookupLast "annotations" fields).getD (.arr [])) with
  | .error e => .error e
  | .ok items => annotDict items

/-- The benchmark configuration fields that the execution engine reads
(config.py); `time_limit` is loaded but, per the source, never used by the
invocation or polling logic. -/
structure Config where
  num_runs : Nat
  num_invocations : Nat
  warmup_invocations : Nat
  workers : Int
  function : String
  blocking : Bool
  time_limit : Int
  time_precision : ℚ
  apihost : String
  authorization : String
  payload : JsonVal

/-- An HTTP response as observed by the runner: `body` is the result of
`response.json()` (`none` when the body is not valid JSON, in which case
`.json()` raises ValueError), `status_code` the HTTP status, and
`client_elapsed_time` the attribute of the same name that the callers in
runner.py may have attached (absent by default; `getattr` returns 0). -/
structure Response where
  body : Option JsonVal
  status_code : Nat
  client_elapsed_time : Option ℚ

/-- The dictionary returned by `extract_metrics` (metrics.py lines 21-28):
the three server-side fields hold whatever JSON value the response carried,
`client_elapsed_time` is the numeric attribute set by the caller, and
`success` holds the raw value stored by line 18 or 19. -/
structure RawMetrics where
  initTime : JsonVal
  waitTime : JsonVal
  duration : JsonVal
  client_elapsed_time : ℚ
  success : JsonVal

/-- Python `str.lower()`: lowercase every character (modelled on the
character list of the string). -/
def pyLower (s : String) : String := ⟨s.data.map Char.toLower⟩

/-- Line 18 or 19 of metrics.py: in blocking mode the raw top-level
`success` field (default `False`); otherwise
`json_response.get('response', {}).get('status', '').lower() == 'success'`,
where calling `.get` on a non-dict or `.lower()` on a non-string raises
AttributeError. -/
def computeSuccess (fields : List (String × JsonVal)) (cfg : Config) :
    Except PyExc JsonVal :=
  if cfg.blocking then
    .ok ((lookupLast "success" fields).getD (.bool false))
  else
    match (lookupLast "response" fields).getD (.obj []) with
    | .obj rfs =>
      match (lookupLast "status" rfs).getD (.str "") with
      | .str s => .ok (.bool (pyLower s == "success"))
      | _ => .error .attributeError
    | _ => .error .attributeError

/-- The body of the `try:` block of `extract_metrics` (metrics.py lines
10-27), returning the metrics dictionary or the Python exception raised. -/
def extract_metrics_body (resp : Response) (cfg : Config) :
    Except PyExc RawMetrics :=
  match resp.body with
  | none => .error .valueError
  | some (.obj fields) =>
    match annotPairs fields with
    | .error e => .error e
    | .ok pairs =>
      match computeSuccess fields cfg with
      | .error e => .error e
      | .ok succ =>
        .ok { initTime := (strKeyGetLast "initTime" pairs).getD (.num 0)
              waitTime := (strKeyGetLast "waitTime" pairs).getD (.num 0)
              duration := (lookupLast "duration" fields).getD (.num 0)
              client_elapsed_time := resp.client_elapsed_time.getD 0
              success := succ }
  | some _ => .error .attributeError

/-- `extract_metrics` (metrics.py lines 6-28): the `except (ValueError,
KeyError)` clause converts those two exceptions into the all-zero failure
record of line 28; any other exception propagates to the caller. -/
def extract_metrics (resp : Response) (cfg : Config) :
    Except PyExc RawMetrics :=
  match extract_metrics_body resp cfg with
  | .ok r => .ok r
  | .error .valueError => .ok ⟨.num 0, .num 0, .num 0, 0, .bool false⟩
  | .error .keyError => .ok ⟨.num 0, .num 0, .num 0, 0, .bool false⟩
  | .error e => .error e

/-- Python truthiness, as used by `if m['success']` in metrics.py line 41. -/
def pyTruthy : JsonVal → Bool
  | .null => false
  | .bool b => b
  | .num q => decide (q ≠ 0)
  | .str s => decide (s ≠ "")
  | .arr l => !l.isEmpty
  | .obj l => !l.isEmpty

/-- Coercion of a JSON value to a number as performed by the `statistics`
module: booleans count as 0/1, any non-numeric value raises TypeError. -/
def asNum : JsonVal → Except PyExc ℚ
  | .num q => .ok q
  | .bool b => .ok (if b then 1 else 0)
  | _ => .error .typeError

/-- Numeric coercion of a whole list of samples; the statistics functions
raise TypeError when any sample is non-numeric. -/
def asNums : List JsonVal → Except PyExc (List ℚ)
  | [] => .ok []
  | v :: vs =>
    match asNum v with
    | .error e => .error e
    | .ok q =>
      match asNums vs with
      | .error e => .error e
      | .ok qs => .ok (q :: qs)

/-- `statistics.mean`: the arithmetic mean, raising StatisticsError on an
empty list. -/
def pyMean (l : List ℚ) : Except PyExc ℚ :=
  if l.length = 0 then .error .statisticsError
  else .ok (l.sum / (l.length : ℚ))

/-- Built-in `min` over a non-empty sequence (ValueError when empty). -/
def pyMin : List ℚ → Except PyExc ℚ
  | [] => .error .valueError
  | x :: xs => .ok (xs.foldl min x)

/-- Built-in `max` over a non-empty sequence (ValueError when empty). -/
def pyMax : List ℚ → Except PyExc ℚ
  | [] => .error .valueError
  | x :: xs => .ok (xs.foldl max x)

/-- The square of `statistics.stdev`, i.e. the sample variance
`Σ (x - mean)² / (n - 1)`.  `statistics.stdev` itself is the (generally
irrational) square root of this value, hence fully determined by it; it
raises StatisticsError on fewer than two data points. -/
def pyStdevSq (l : List ℚ) : Except PyExc ℚ :=
  if l.length < 2 then .error .statisticsError
  else .ok ((l.map (fun x => (x - l.sum / (l.length : ℚ)) ^ 2)).sum /
            ((l.length : ℚ) - 1))

/-- One row of the statistics table of metrics.py lines 44-47: average,
minimum, maximum and (squared) sample standard deviation of one metric
dimension. -/
structure DimStats where
  avg : ℚ
  min : ℚ
  max : ℚ
  stdSq : ℚ
deriving DecidableEq, Repr

/-- One dictionary entry of metrics.py lines 44-47, evaluating average,
minimum, maximum and standard deviation left to right, so that the first
exception raised by any of them propagates. -/
def dimStats (l : List ℚ) : Except PyExc DimStats :=
  match pyMean l with
  | .error e => .error e
  | .ok a =>
    match pyMin l with
    | .error e => .error e
    | .ok mn =>
      match pyMax l with
      | .error e => .error e
      | .ok mx =>
        match pyStdevSq l with
        | .error e => .error e
        | .ok sq => .ok ⟨a, mn, mx, sq⟩

/-- A dimension row computed from raw (possibly non-numeric) samples. -/
def dimStatsR (l : List JsonVal) : Except PyExc DimStats :=
  match asNums l with
  | .error e => .error e
  | .ok ns => dimStats ns

/-- The aggregate statistics dictionary of metrics.py lines 43-49. -/
structure BenchStats where
  initTime : DimStats
  waitTime : DimStats
  duration : DimStats
  client_elapsed_time : DimStats
  success_rate : ℚ
deriving DecidableEq, Repr

/-- Metrics.py line 41:
`sum(1 for m in metrics_list if m['success']) / len(metrics_list) * 100`
(the division by `len` raises ZeroDivisionError on an empty list, which
`benchmark_statistics` models separately). -/
def success_rate_calc (ms : List RawMetrics) : ℚ :=
  ((ms.countP (fun m => pyTruthy m.success)) : ℚ) / (ms.length : ℚ) * 100

/-- `benchmark_statistics` (metrics.py lines 31-50): on an empty list the
success-rate division of line 41 raises ZeroDivisionError before any
aggregate is computed; otherwise the four dimension rows are computed in
source order and the first exception raised by any of them propagates. -/
def benchmark_statistics (ms : List RawMetrics) : Except PyExc BenchStats :=
  if ms.length = 0 then .error .zeroDivisionError
  else
    match dimStatsR (ms.map (·.initTime)) with
    | .error e => .error e
    | .ok i =>
      match dimStatsR (ms.map (·.waitTime)) with
      | .error e => .error e
      | .ok w =>
        match dimStatsR (ms.map (·.duration)) with
        | .error e => .error e
        | .ok d =>
          match dimStats (ms.map (·.client_elapsed_time)) with
          | .error e => .error e
          | .ok c => .ok ⟨i, w, d, c, success_rate_calc ms⟩

/-- The InvocationResult of the specification's data model: the four numeric
dimensions together with a boolean success flag. -/
structure InvocationResult where
  initTime : ℚ
  waitTime : ℚ
  duration : ℚ
  client_elapsed_time : ℚ
  success : Bool
deriving DecidableEq, Repr

/-- The raw metrics dictionary corresponding to a well-typed
InvocationResult. -/
def toRaw (r : InvocationResult) : RawMetrics :=
  ⟨.num r.initTime, .num r.waitTime, .num r.duration,
   r.client_elapsed_time, .bool r.success⟩

/-- An HTTP request issued by the runner, as observable on the wire. -/
structure HttpRequest where
  method : String
  url : String
  authorization : String
  payload : Option JsonVal

/-- An externally observable event of the runner: an HTTP request, or a
`time.sleep` of the given number of milliseconds. -/
inductive Event where
  | req (r : HttpRequest)
  | sleep (ms : ℚ)

/-- The transport-and-clock oracle for one invocation attempt: the response
to the POST, the responses to the successive polling GETs, and the elapsed
wall-clock milliseconds the caller would measure (`response.elapsed` for the
blocking POST; time from POST start to the return of the n-th GET for the
non-blocking path). -/
structure Exchange where
  post : Response
  gets : Nat → Response
  syncElapsed : ℚ
  asyncElapsed : Nat → ℚ

/-- The action URL built by runner.py lines 33 and 44. -/
def actionUrl (cfg : Config) (blockingFlag : String) : String :=
  cfg.apihost ++ "/namespaces/_/actions/" ++ cfg.function ++ "?blocking=" ++
    blockingFlag ++ "&result=true&workers=" ++ toString cfg.workers

/-- `sync_call` (runner.py lines 29-36): one POST; the response gets the
measured round-trip time attached as `client_elapsed_time`. -/
def sync_call (ex : Exchange) (cfg : Config) : HttpRequest × Response :=
  (⟨"POST", actionUrl cfg "true", cfg.authorization, some cfg.payload⟩,
   { ex.post with client_elapsed_time := some ex.syncElapsed })

/-- The polling GET request of runner.py line 53. -/
def getReq (url auth : String) : HttpRequest := ⟨"GET", url, auth, none⟩

/-- The `while True:` polling loop of runner.py lines 52-56, run with the
given fuel: GET the activation URL; stop at HTTP status 200; otherwise sleep
`time_precision` milliseconds and poll again.  Returns the emitted events
and the index of the completing GET (`none` when the fuel ran out, i.e. the
loop is still running after `fuel` polls — the source enforces no bound). -/
def pollLoop (gets : Nat → Response) (url auth : String) (tp : ℚ) :
    Nat → Nat → List Event × Option Nat
  | 0, _ => ([], none)
  | fuel + 1, i =>
    if (gets i).status_code = 200 then
      ([.req (getReq url auth)], some i)
    else
      let rest := pollLoop gets url auth tp fuel (i + 1)
      (.req (getReq url auth) :: .sleep tp :: rest.1, rest.2)

/-- `post_response.json()["activationId"]` (runner.py line 48): ValueError
when the body is not JSON, TypeError when it is not an object, KeyError when
the key is missing. -/
def activationIdOf (r : Response) : Except PyExc JsonVal :=
  match r.body with
  | none => .error .valueError
  | some (.obj fs) =>
    match lookupLast "activationId" fs with
    | some v => .ok v
    | none => .error .keyError
  | some _ => .error .typeError

/-- The outcome of a fragment of the benchmark: a normal value, a
propagating Python exception, or fuel exhaustion of the unbounded polling
loop. -/
inductive PResult (α : Type) where
  | ok (a : α)
  | raise (e : PyExc)
  | diverge

/-- `async_call` (runner.py lines 39-60): POST with `blocking=false`, read
the activation id (a non-string id makes the URL concatenation of line 49
raise TypeError), poll until HTTP 200, and attach the measured elapsed time
to the completing GET response. -/
def async_call (ex : Exchange) (cfg : Config) (fuel : Nat) :
    List Event × PResult (Response × Response) :=
  let postEv : Event :=
    .req ⟨"POST", actionUrl cfg "false", cfg.authorization, some cfg.payload⟩
  match activationIdOf ex.post with
  | .error e => ([postEv], .raise e)
  | .ok (.str aid) =>
    let url := cfg.apihost ++ "/namespaces/_/activations/" ++ aid
    let r := pollLoop ex.gets url cfg.authorization cfg.time_precision fuel 0
    match r.2 with
    | none => (postEv :: r.1, .diverge)
    | some i =>
      (postEv :: r.1,
       .ok (ex.post,
            { ex.gets i with client_elapsed_time := some (ex.asyncElapsed i) }))
  | .ok _ => ([postEv], .raise .typeError)

/-- `bench_single_invocations` (runner.py lines 63-77): dispatch on the
blocking flag and extract the metrics of the completion response; an
exception from `extract_metrics` propagates. -/
def bench_single_invocations (ex : Exchange) (cfg : Config) (fuel : Nat) :
    List Event × PResult RawMetrics :=
  if cfg.blocking then
    let sr := sync_call ex cfg
    ([.req sr.1],
     match extract_metrics sr.2 cfg with
     | .ok m => .ok m
     | .error e => .raise e)
  else
    let ar := async_call ex cfg fuel
    (ar.1,
     match ar.2 with
     | .ok pg =>
       match extract_metrics pg.2 cfg with
       | .ok m => .ok m
       | .error e => .raise e
     | .raise e => .raise e
     | .diverge => .diverge)

/-- The warmup branch of `bench_multiple_invocations` (runner.py lines
85-87): run the given number of invocations, discarding every result; the
returned number is the next global attempt index. -/
def warmupLoop (env : Nat → Exchange) (cfg : Config) (fuel : Nat) :
    Nat → Nat → List Event × PResult Nat
  | 0, k => ([], .ok k)
  | n + 1, k =>
    match bench_single_invocations (env k) cfg fuel with
    | (tr, .ok _) =>
      match warmupLoop env cfg fuel n (k + 1) with
      | (tr2, r) => (tr ++ tr2, r)
    | (tr, .raise e) => (tr, .raise e)
    | (tr, .diverge) => (tr, .diverge)

/-- The measurement branch of `bench_multiple_invocations` (runner.py lines
88-93): run the given number of invocations and collect the metrics of each
in order, together with the next global attempt index. -/
def measureLoop (env : Nat → Exchange) (cfg : Config) (fuel : Nat) :
    Nat → Nat → List Event × PResult (List RawMetrics × Nat)
  | 0, k => ([], .ok ([], k))
  | n + 1, k =>
    match bench_single_invocations (env k) cfg fuel with
    | (tr, .ok m) =>
      match measureLoop env cfg fuel n (k + 1) with
      | (tr2, .ok p) => (tr ++ tr2, .ok (m :: p.1, p.2))
      | (tr2, .raise e) => (tr ++ tr2, .raise e)
      | (tr2, .diverge) => (tr ++ tr2, .diverge)
    | (tr, .raise e) => (tr, .raise e)
    | (tr, .diverge) => (tr, .diverge)

/-- The main loop of `run_benchmark` (runner.py lines 108-111): for each
run, collect one measurement list and extend the accumulated metrics. -/
def runsLoop (env : Nat → Exchange) (cfg : Config) (fuel : Nat) :
    Nat → Nat → List Event × PResult (List RawMetrics × Nat)
  | 0, k => ([], .ok ([], k))
  | n + 1, k =>
    match measureLoop env cfg fuel cfg.num_invocations k with
    | (tr, .ok p) =>
      match runsLoop env cfg fuel n p.2 with
      | (tr2, .ok q) => (tr ++ tr2, .ok (p.1 ++ q.1, q.2))
      | (tr2, .raise e) => (tr ++ tr2, .raise e)
      | (tr2, .diverge) => (tr ++ tr2, .diverge)
    | (tr, .raise e) => (tr, .raise e)
    | (tr, .diverge) => (tr, .diverge)

/-- Lines 101-111 of `run_benchmark`: the warmup pass (results discarded)
followed by the measurement runs; the value is the complete metric series
handed to `benchmark_statistics`, with the next attempt index. -/
def collectAll (env : Nat → Exchange) (cfg : Config) (fuel : Nat) :
    List Event × PResult (List RawMetrics × Nat) :=
  match warmupLoop env cfg fuel cfg.warmup_invocations 0 with
  | (tr, .ok k) =>
    match runsLoop env cfg fuel cfg.num_runs k with
    | (tr2, r) => (tr ++ tr2, r)
  | (tr, .raise e) => (tr, .raise e)
  | (tr, .diverge) => (tr, .diverge)

/-- `run_benchmark` (runner.py lines 96-114) up to the statistics
computation: the collected series is passed to `benchmark_statistics`,
whose exception, if any, propagates.  (Formatting and file output are
out of scope.) -/
def run_benchmark (env : Nat → Exchange) (cfg : Config) (fuel : Nat) :
    List Event × PResult (List RawMetrics × BenchStats) :=
  match collectAll env cfg fuel with
  | (tr, .ok p) =>
    (tr,
     match benchmark_statistics p.1 with
     | .ok s => .ok (p.1, s)
     | .error e => .raise e)
  | (tr, .raise e) => (tr, .raise e)
  | (tr, .diverge) => (tr, .diverge)

/-- A concrete transport oracle: every POST answers with a successful
blocking body; used to exercise the benchmark loop on a known input. -/
def exC4 : Exchange :=
  ⟨⟨some (.obj [("success", .bool true), ("duration", .num 10)]), 200, none⟩,
   fun _ => ⟨none, 200, none⟩, 5, fun _ => 9⟩

/-- A concrete blocking configuration: two runs of one invocation after one
warmup invocation. -/
def cfgC4 : Config := ⟨2, 1, 1, 3, "f", true, 60, 100, "h", "a", .null⟩

/-- A concrete polling oracle whose activation completes on the third GET. -/
def getsC7 : Nat → Response :=
  fun n => ⟨none, if n = 2 then 200 else 202, none⟩

/- ---------------------------------------------------------------------
   Helper lemmas about the annotation-dictionary construction.
   --------------------------------------------------------------------- -/

theorem annotDict_error_of_split (good rest : List JsonVal) (bad : JsonVal)
    (e : PyExc) (hgood : ∀ it ∈ good, ∃ p, annotEntry it = .ok p)
    (hbad : annotEntry bad = .error e) :
    annotDict (good ++ bad :: rest) = .error e := by
  induction good with
  | nil => simp [annotDict, hbad]
  | cons it g ih =>
    obtain ⟨p, hp⟩ := hgood it (by simp)
    have hrec := ih (fun x hx => hgood x (by simp [hx]))
    simp [annotDict, hp, hrec]

theorem annotDict_ok_of_forall (xs : List JsonVal)
    (h : ∀ it ∈ xs, ∃ p, annotEntry it = .ok p) :
    ∃ ps, annotDict xs = .ok ps := by
  induction xs with
  | nil => exact ⟨[], rfl⟩
  | cons it g ih =>
    obtain ⟨p, hp⟩ := h it (by simp)
    obtain ⟨ps, hps⟩ := ih (fun x hx => h x (by simp [hx]))
    exact ⟨p :: ps, by simp [annotDict, hp, hps]⟩

theorem annotDict_mem (xs : List JsonVal) (ps : List (JsonVal × JsonVal))
    (h : annotDict xs = .ok ps) :
    ∀ p ∈ ps, ∃ it ∈ xs, annotEntry it = .ok p := by
  induction xs generalizing ps with
  | nil =>
    cases h
    intro p hp
    cases hp
  | cons it g ih =>
    intro p hp
    revert h
    unfold annotDict
    cases he : annotEntry it with
    | error e => intro h; cases h
    | ok q =>
      cases hd : annotDict g with
      | error e => intro h; cases h
      | ok qs =>
        intro h
        cases h
        rcases List.mem_cons.mp hp with h1 | h2
        · exact ⟨it, by simp, by rw [he, h1]⟩
        · obtain ⟨x, hx, hxe⟩ := ih qs hd p h2
          exact ⟨x, by simp [hx], hxe⟩

theorem annotDict_append_ok (xs ys : List JsonVal)
    (ps qs : List (JsonVal × JsonVal))
    (hx : annotDict xs = .ok ps) (hy : annotDict ys = .ok qs) :
    annotDict (xs ++ ys) = .ok (ps ++ qs) := by
  induction xs generalizing ps with
  | nil => cases hx; simpa using hy
  | cons it g ih =>
    revert hx
    unfold annotDict
    cases he : annotEntry it with
    | error e => intro hx; cases hx
    | ok p =>
      cases hd : annotDict g with
      | error e => intro hx; cases hx
      | ok gs =>
        intro hx
        cases hx
        simp [annotDict, he, ih gs hd]

theorem strKeyGetLast_append (s : String) (ps qs : List (JsonVal × JsonVal)) :
    strKeyGetLast s (ps ++ qs) =
      match strKeyGetLast s qs with
      | some v => some v
      | none => strKeyGetLast s ps := by
  induction ps with
  | nil => cases hq : strKeyGetLast s qs <;> simp [strKeyGetLast, hq]
  | cons p ps ih =>
    obtain ⟨k, v⟩ := p
    simp only [List.cons_append, strKeyGetLast, List.append_eq]
    rw [ih]
    cases hq : strKeyGetLast s qs <;> cases hp : strKeyGetLast s ps <;> simp

theorem strKeyGetLast_eq_none (s : String) (ps : List (JsonVal × JsonVal))
    (h : ∀ p ∈ ps, p.1 ≠ JsonVal.str s) : strKeyGetLast s ps = none := by
  induction ps with
  | nil => rfl
  | cons p ps ih =>
    have h1 := h p (by simp)
    have hrec := ih (fun x hx => h x (by simp [hx]))
    cases p with
    | mk k v =>
      simp only [strKeyGetLast, hrec]
      cases k <;> simp_all

/- ---------------------------------------------------------------------
   Helper lemmas about the statistics functions.
   --------------------------------------------------------------------- -/

theorem foldl_min_le (x : ℚ) (xs : List ℚ) :
    ∀ y ∈ x :: xs, xs.foldl min x ≤ y := by
  induction xs generalizing x with
  | nil =>
    intro y hy
    simp only [List.mem_singleton] at hy
    simp [hy]
  | cons a l ih =>
    intro y hy
    simp only [List.foldl_cons]
    rcases List.mem_cons.mp hy with h1 | h2
    · subst h1
      calc l.foldl min (min y a) ≤ min y a := ih (min y a) _ (by simp)
        _ ≤ y := min_le_left _ _
    · rcases List.mem_cons.mp h2 with h3 | h4
      · subst h3
        calc l.foldl min (min x y) ≤ min x y := ih (min x y) _ (by simp)
          _ ≤ y := min_le_right _ _
      · exact ih (min x a) y (by simp [h4])

theorem le_foldl_max (x : ℚ) (xs : List ℚ) :
    ∀ y ∈ x :: xs, y ≤ xs.foldl max x := by
  induction xs generalizing x with
  | nil =>
    intro y hy
    simp only [List.mem_singleton] at hy
    simp [hy]
  | cons a l ih =>
    intro y hy
    simp only [List.foldl_cons]
    rcases List.mem_cons.mp hy with h1 | h2
    · subst h1
      calc y ≤ max y a := le_max_left _ _
        _ ≤ l.foldl max (max y a) := ih (max y a) _ (by simp)
    · rcases List.mem_cons.mp h2 with h3 | h4
      · subst h3
        calc y ≤ max x y := le_max_right _ _
          _ ≤ l.foldl max (max x y) := ih (max x y) _ (by simp)
      · exact ih (max x a) y (by simp [h4])

theorem foldl_min_mem (x : ℚ) (xs : List ℚ) : xs.foldl min x ∈ x :: xs := by
  induction xs generalizing x with
  | nil => simp
  | cons a l ih =>
    simp only [List.foldl_cons]
    rcases List.mem_cons.mp (ih (min x a)) with h1 | h2
    · rcases min_choice x a with h | h <;> rw [h1, h] <;> simp
    · simp [h2]

theorem foldl_max_mem (x : ℚ) (xs : List ℚ) : xs.foldl max x ∈ x :: xs := by
  induction xs generalizing x with
  | nil => simp
  | cons a l ih =>
    simp only [List.foldl_cons]
    rcases List.mem_cons.mp (ih (max x a)) with h1 | h2
    · rcases max_choice x a with h | h <;> rw [h1, h] <;> simp
    · simp [h2]

theorem length_mul_le_sum (l : List ℚ) (m : ℚ) (h : ∀ y ∈ l, m ≤ y) :
    (l.length : ℚ) * m ≤ l.sum := by
  induction l with
  | nil => simp
  | cons a t ih =>
    have ha := h a (by simp)
    have ht := ih (fun y hy => h y (by simp [hy]))
    simp only [List.length_cons, List.sum_cons]
    push_cast
    linarith

theorem sum_le_length_mul (l : List ℚ) (m : ℚ) (h : ∀ y ∈ l, y ≤ m) :
    l.sum ≤ (l.length : ℚ) * m := by
  induction l with
  | nil => simp
  | cons a t ih =>
    have ha := h a (by simp)
    have ht := ih (fun y hy => h y (by simp [hy]))
    simp only [List.length_cons, List.sum_cons]
    push_cast
    linarith

theorem pyMin_perm (l₁ l₂ : List ℚ) (h : l₁.Perm l₂) : pyMin l₁ = pyMin l₂ := by
  cases l₁ with
  | nil =>
    have : l₂ = [] := h.symm.eq_nil
    rw [this]
  | cons x xs =>
    cases l₂ with
    | nil => exact absurd h.eq_nil (by simp)
    | cons y ys =>
      have h1 : xs.foldl min x ≤ ys.foldl min y :=
        foldl_min_le x xs _ (h.mem_iff.mpr (foldl_min_mem y ys))
      have h2 : ys.foldl min y ≤ xs.foldl min x :=
        foldl_min_le y ys _ (h.mem_iff.mp (foldl_min_mem x xs))
      simp [pyMin, le_antisymm h1 h2]

theorem pyMax_perm (l₁ l₂ : List ℚ) (h : l₁.Perm l₂) : pyMax l₁ = pyMax l₂ := by
  cases l₁ with
  | nil =>
    have : l₂ = [] := h.symm.eq_nil
    rw [this]
  | cons x xs =>
    cases l₂ with
    | nil => exact absurd h.eq_nil (by simp)
    | cons y ys =>
      have h1 : ys.foldl max y ≤ xs.foldl max x :=
        le_foldl_max x xs _ (h.mem_iff.mpr (foldl_max_mem y ys))
      have h2 : xs.foldl max x ≤ ys.foldl max y :=
        le_foldl_max y ys _ (h.mem_iff.mp (foldl_max_mem x xs))
      simp [pyMax, le_antisymm h2 h1]

theorem dimStats_perm (l₁ l₂ : List ℚ) (h : l₁.Perm l₂) :
    dimStats l₁ = dimStats l₂ := by
  have hsum := h.sum_eq
  have hlen := h.length_eq
  have hmean : pyMean l₁ = pyMean l₂ := by
    unfold pyMean
    rw [hlen, hsum]
  have hvar : pyStdevSq l₁ = pyStdevSq l₂ := by
    unfold pyStdevSq
    rw [hlen, hsum]
    have hm : (l₁.map (fun x => (x - l₂.sum / (l₂.length : ℚ)) ^ 2)).sum =
        (l₂.map (fun x => (x - l₂.sum / (l₂.length : ℚ)) ^ 2)).sum :=
      (h.map _).sum_eq
    rw [hm]
  unfold dimStats
  rw [hmean, pyMin_perm l₁ l₂ h, pyMax_perm l₁ l₂ h, hvar]

theorem asNums_map_num (l : List ℚ) : asNums (l.map JsonVal.num) = .ok l := by
  induction l with
  | nil => rfl
  | cons a t ih => simp [asNums, asNum, ih]

theorem dimStatsR_map_num (l : List ℚ) :
    dimStatsR (l.map JsonVal.num) = dimStats l := by
  simp [dimStatsR, asNums_map_num]

theorem mapRaw_initTime (ms : List InvocationResult) :
    (ms.map toRaw).map (fun r => r.initTime) =
      (ms.map (fun m => m.initTime)).map JsonVal.num := by
  simp [List.map_map]
  intro a _
  rfl

theorem mapRaw_waitTime (ms : List InvocationResult) :
    (ms.map toRaw).map (fun r => r.waitTime) =
      (ms.map (fun m => m.waitTime)).map JsonVal.num := by
  simp [List.map_map]
  intro a _
  rfl

theorem mapRaw_duration (ms : List InvocationResult) :
    (ms.map toRaw).map (fun r => r.duration) =
      (ms.map (fun m => m.duration)).map JsonVal.num := by
  simp [List.map_map]
  intro a _
  rfl

theorem mapRaw_cet (ms : List InvocationResult) :
    (ms.map toRaw).map (fun r => r.client_elapsed_time) =
      ms.map (fun m => m.client_elapsed_time) := by
  simp [List.map_map]
  intro a _
  rfl

theorem dimStats_min_avg_max (x : ℚ) (xs : List ℚ)
    (h : 2 ≤ (x :: xs).length) :
    ∃ ds, dimStats (x :: xs) = .ok ds ∧
      ds.min = xs.foldl min x ∧ ds.max = xs.foldl max x ∧
      ds.avg = (x :: xs).sum / ((x :: xs).length : ℚ) ∧
      ds.min ≤ ds.avg ∧ ds.avg ≤ ds.max := by
  have hpos : (0 : ℚ) < ((x :: xs).length : ℚ) := by
    have : 0 < (x :: xs).length := by simp
    exact_mod_cast this
  have h2 : 2 ≤ xs.length + 1 := by simpa using h
  refine ⟨⟨(x :: xs).sum / ((x :: xs).length : ℚ), xs.foldl min x,
    xs.foldl max x,
    ((x :: xs).map (fun y =>
      (y - (x :: xs).sum / ((x :: xs).length : ℚ)) ^ 2)).sum /
      (((x :: xs).length : ℚ) - 1)⟩, ?_, rfl, rfl, rfl, ?_, ?_⟩
  · simp [dimStats, pyMean, pyMin, pyMax, pyStdevSq, Nat.not_lt.mpr h2]
  · have hb := length_mul_le_sum (x :: xs) (xs.foldl min x) (foldl_min_le x xs)
    rw [le_div_iff₀ hpos]
    linarith
  · have hb := sum_le_length_mul (x :: xs) (xs.foldl max x) (le_foldl_max x xs)
    rw [div_le_iff₀ hpos]
    linarith

end OWBench

namespace OWBench

/-- C5: applied to an empty metric series, `benchmark_statistics` fails fast
with the error raised by the `len(metrics_list)` division of the
success-rate expression (the ZeroDivisionError standing in for an
EmptyInputError), before any aggregate statistic is computed: no
`BenchStats` value is ever produced. -/
theorem benchmark_statistics_empty_fails_fast :
    benchmark_statistics [] = .error .zeroDivisionError := rfl

/-- C1: an invocation attempt whose completion body fails to parse as JSON
(`response.json()` raises ValueError), or whose annotation list has an entry
lacking the expected `key`/`value` fields (a KeyError inside the dict
comprehension), yields exactly the recovery record with all four numeric
fields 0 and `success = false`, returned normally rather than raised. -/
theorem extract_metrics_parse_failure_degraded (resp : Response) (cfg : Config) :
    (resp.body = none →
      extract_metrics resp cfg =
        .ok ⟨.num 0, .num 0, .num 0, 0, .bool false⟩) ∧
    (∀ fields good bad rest,
      resp.body = some (.obj fields) →
      lookupLast "annotations" fields = some (.arr (good ++ bad :: rest)) →
      (∀ it ∈ good, ∃ p, annotEntry it = .ok p) →
      annotEntry bad = .error .keyError →
      extract_metrics resp cfg =
        .ok ⟨.num 0, .num 0, .num 0, 0, .bool false⟩) := by
  constructor
  · intro h
    simp [extract_metrics, extract_metrics_body, h]
  · intro fields good bad rest hbody hann hgood hbad
    have hdict := annotDict_error_of_split good rest bad .keyError hgood hbad
    have hpairs : annotPairs fields = .error .keyError := by
      simp [annotPairs, hann, iterItems, hdict]
    simp [extract_metrics, extract_metrics_body, hbody, hpairs]

/-- Witness for C1: a body that is not JSON, and a body whose annotation
entry lacks both fields, each produce the all-zero failure record. -/
theorem extract_metrics_parse_failure_degraded_witness :
    extract_metrics ⟨none, 200, some 42⟩
        ⟨2, 3, 1, 4, "fn", true, 60, 100, "h", "a", .null⟩ =
      .ok ⟨.num 0, .num 0, .num 0, 0, .bool false⟩ ∧
    extract_metrics
        ⟨some (.obj [("annotations", .arr [.obj [("other", .num 1)]])]),
         200, some 42⟩
        ⟨2, 3, 1, 4, "fn", true, 60, 100, "h", "a", .null⟩ =
      .ok ⟨.num 0, .num 0, .num 0, 0, .bool false⟩ :=
  ⟨(extract_metrics_parse_failure_degraded _ _).1 rfl,
   (extract_metrics_parse_failure_degraded _ _).2
     [("annotations", .arr [.obj [("other", .num 1)]])]
     [] (.obj [("other", .num 1)]) [] rfl rfl
     (by intro it h; cases h) rfl⟩

/-- C2: when extraction reaches the success computation, the success value
is produced by two distinct predicates: in blocking mode it is the raw
top-level `success` field of the body (defaulting to `False` when absent);
in non-blocking mode it is the boolean comparing the lowercased nested
`response.status` string with the literal `"success"`. -/
theorem extract_metrics_success_modes (resp : Response) (cfg : Config)
    (fields : List (String × JsonVal)) (pairs : List (JsonVal × JsonVal))
    (hbody : resp.body = some (.obj fields))
    (hann : annotPairs fields = .ok pairs) :
    (cfg.blocking = true →
      ∃ r, extract_metrics resp cfg = .ok r ∧
        r.success = (lookupLast "success" fields).getD (.bool false)) ∧
    (cfg.blocking = false →
      ∀ rfs s,
        (lookupLast "response" fields).getD (.obj []) = .obj rfs →
        (lookupLast "status" rfs).getD (.str "") = .str s →
        ∃ r, extract_metrics resp cfg = .ok r ∧
          r.success = .bool (pyLower s == "success") ∧
          (r.success = .bool true ↔ pyLower s = "success")) := by
  constructor
  · intro hb
    have hs : computeSuccess fields cfg =
        .ok ((lookupLast "success" fields).getD (.bool false)) := by
      simp [computeSuccess, hb]
    have hok : extract_metrics resp cfg = .ok
        { initTime := (strKeyGetLast "initTime" pairs).getD (.num 0)
          waitTime := (strKeyGetLast "waitTime" pairs).getD (.num 0)
          duration := (lookupLast "duration" fields).getD (.num 0)
          client_elapsed_time := resp.client_elapsed_time.getD 0
          success := (lookupLast "success" fields).getD (.bool false) } := by
      simp [extract_metrics, extract_metrics_body, hbody, hann, hs]
    exact ⟨_, hok, rfl⟩
  · intro hb rfs s hr hst
    have hs : computeSuccess fields cfg =
        .ok (.bool (pyLower s == "success")) := by
      simp [computeSuccess, hb, hr, hst]
    have hok : extract_metrics resp cfg = .ok
        { initTime := (strKeyGetLast "initTime" pairs).getD (.num 0)
          waitTime := (strKeyGetLast "waitTime" pairs).getD (.num 0)
          duration := (lookupLast "duration" fields).getD (.num 0)
          client_elapsed_time := resp.client_elapsed_time.getD 0
          success := .bool (pyLower s == "success") } := by
      simp [extract_metrics, extract_metrics_body, hbody, hann, hs]
    refine ⟨_, hok, rfl, ?_⟩
    constructor
    · intro h
      have hbe : (pyLower s == "success") = true := by
        simpa using h
      exact eq_of_beq hbe
    · intro h
      simp [h]

/-- Witness for C2: `{"success": true}` in blocking mode yields success
`True`; `{"response": {"status": "Success"}}` in non-blocking mode yields
success `true` by the case-insensitive comparison. -/
theorem extract_metrics_success_modes_witness :
    (∃ r, extract_metrics ⟨some (.obj [("success", .bool true)]), 200, none⟩
        ⟨2, 3, 1, 4, "fn", true, 60, 100, "h", "a", .null⟩ = .ok r ∧
      r.success = (lookupLast "success" [("success", JsonVal.bool true)]).getD
        (.bool false)) ∧
    (∃ r, extract_metrics
        ⟨some (.obj [("response", .obj [("status", .str "Success")])]),
         200, none⟩
        ⟨2, 3, 1, 4, "fn", false, 60, 100, "h", "a", .null⟩ = .ok r ∧
      r.success = .bool (pyLower "Success" == "success") ∧
      (r.success = .bool true ↔ pyLower "Success" = "success")) :=
  ⟨(extract_metrics_success_modes _ _ [("success", .bool true)] [] rfl rfl).1
      rfl,
   (extract_metrics_success_modes _ _
      [("response", .obj [("status", .str "Success")])] [] rfl rfl).2
      rfl [("status", .str "Success")] "Success" rfl rfl⟩

/-- C10: when the annotation list carries several entries with the same key,
the key-to-value dict built by the comprehension keeps the value of the last
such entry, so `initTime` (resp. `waitTime`) is read from the last
`initTime` (resp. `waitTime`) entry. -/
theorem extract_metrics_last_key_wins (resp : Response) (cfg : Config)
    (fields : List (String × JsonVal)) (pre post : List JsonVal)
    (kname : String) (v : JsonVal)
    (hbody : resp.body = some (.obj fields))
    (hann : lookupLast "annotations" fields =
      some (.arr (pre ++ .obj [("key", .str kname), ("value", v)] :: post)))
    (hpre : ∀ it ∈ pre, ∃ p, annotEntry it = .ok p)
    (hdup : ∃ it ∈ pre, ∃ ifs w, it = JsonVal.obj ifs ∧
      lookupLast "key" ifs = some (.str kname) ∧
      lookupLast "value" ifs = some w)
    (hpost : ∀ it ∈ post, ∃ p, annotEntry it = .ok p)
    (hpostk : ∀ it ∈ post, ∀ k w, annotEntry it = .ok (k, w) →
      k ≠ JsonVal.str kname)
    (hsucc : ∃ sv, computeSuccess fields cfg = .ok sv) :
    ∃ r, extract_metrics resp cfg = .ok r ∧
      (kname = "initTime" → r.initTime = v) ∧
      (kname = "waitTime" → r.waitTime = v) := by
  obtain ⟨preP, hpreP⟩ := annotDict_ok_of_forall pre hpre
  obtain ⟨postP, hpostP⟩ := annotDict_ok_of_forall post hpost
  have hmid : annotEntry (.obj [("key", .str kname), ("value", v)]) =
      .ok (.str kname, v) := rfl
  have hcons : annotDict (JsonVal.obj [("key", .str kname), ("value", v)]
      :: post) = .ok ((JsonVal.str kname, v) :: postP) := by
    simp [annotDict, hmid, hpostP]
  have hdict := annotDict_append_ok _ _ _ _ hpreP hcons
  have hpairs : annotPairs fields =
      .ok (preP ++ (JsonVal.str kname, v) :: postP) := by
    simp [annotPairs, hann, iterItems, hdict]
  have hnone : strKeyGetLast kname postP = none := by
    apply strKeyGetLast_eq_none
    intro p hp
    obtain ⟨it, hit, hite⟩ := annotDict_mem post postP hpostP p hp
    exact hpostk it hit p.1 p.2 (by simpa using hite)
  have hlast : strKeyGetLast kname (preP ++ (JsonVal.str kname, v) :: postP) =
      some v := by
    rw [strKeyGetLast_append]
    simp [strKeyGetLast, hnone]
  obtain ⟨sv, hsv⟩ := hsucc
  have hok : extract_metrics resp cfg = .ok
      { initTime := (strKeyGetLast "initTime"
          (preP ++ (JsonVal.str kname, v) :: postP)).getD (.num 0)
        waitTime := (strKeyGetLast "waitTime"
          (preP ++ (JsonVal.str kname, v) :: postP)).getD (.num 0)
        duration := (lookupLast "duration" fields).getD (.num 0)
        client_elapsed_time := resp.client_elapsed_time.getD 0
        success := sv } := by
    simp [extract_metrics, extract_metrics_body, hbody, hpairs, hsv]
  refine ⟨_, hok, ?_, ?_⟩
  · intro hk
    subst hk
    simp [hlast]
  · intro hk
    subst hk
    simp [hlast]

/-- Witness for C10: two `initTime` annotation entries, 5 then 11; the
extracted `initTime` is 11. -/
theorem extract_metrics_last_key_wins_witness :
    ∃ r, extract_metrics
        ⟨some (.obj [("annotations", .arr
          [.obj [("key", .str "initTime"), ("value", .num 5)],
           .obj [("key", .str "initTime"), ("value", .num 11)]])]),
         200, none⟩
        ⟨2, 3, 1, 4, "fn", true, 60, 100, "h", "a", .null⟩ = .ok r ∧
      ("initTime" = "initTime" → r.initTime = .num 11) ∧
      ("initTime" = "waitTime" → r.waitTime = .num 11) :=
  extract_metrics_last_key_wins _ _
    [("annotations", .arr
      [.obj [("key", .str "initTime"), ("value", .num 5)],
       .obj [("key", .str "initTime"), ("value", .num 11)]])]
    [.obj [("key", .str "initTime"), ("value", .num 5)]] []
    "initTime" (.num 11) rfl rfl
    (by
      intro it h
      simp at h
      exact ⟨(.str "initTime", .num 5), by rw [h]; rfl⟩)
    ⟨.obj [("key", .str "initTime"), ("value", .num 5)], by simp,
     [("key", .str "initTime"), ("value", .num 5)], .num 5, rfl, rfl, rfl⟩
    (by intro it h; cases h)
    (by intro it h; cases h)
    ⟨.bool false, rfl⟩

/-- C3: on any non-empty metric series the success rate computed at line 41
equals exactly (count of successful results) / total × 100, lies in
[0, 100], and is the `success_rate` entry of any statistics dictionary that
`benchmark_statistics` returns. -/
theorem success_rate_exact_and_bounded (ms : List InvocationResult)
    (hne : ms ≠ []) :
    success_rate_calc (ms.map toRaw) =
      ((ms.countP (fun m => m.success)) : ℚ) / (ms.length : ℚ) * 100 ∧
    0 ≤ success_rate_calc (ms.map toRaw) ∧
    success_rate_calc (ms.map toRaw) ≤ 100 ∧
    (∀ s, benchmark_statistics (ms.map toRaw) = .ok s →
      s.success_rate = success_rate_calc (ms.map toRaw)) := by
  have hcount : (ms.map toRaw).countP (fun m => pyTruthy m.success) =
      ms.countP (fun m => m.success) := by
    rw [List.countP_map]
    rfl
  have heq : success_rate_calc (ms.map toRaw) =
      ((ms.countP (fun m => m.success)) : ℚ) / (ms.length : ℚ) * 100 := by
    unfold success_rate_calc
    rw [hcount, List.length_map]
  have hpos : (0 : ℚ) < (ms.length : ℚ) := by
    have : 0 < ms.length := List.length_pos.mpr hne
    exact_mod_cast this
  have hcle : ((ms.countP (fun m => m.success)) : ℚ) ≤ (ms.length : ℚ) := by
    exact_mod_cast List.countP_le_length _
  refine ⟨heq, ?_, ?_, ?_⟩
  · rw [heq]
    positivity
  · rw [heq]
    have hdiv : ((ms.countP (fun m => m.success)) : ℚ) / (ms.length : ℚ) ≤ 1 :=
      (div_le_one hpos).mpr hcle
    linarith
  · intro s h
    unfold benchmark_statistics at h
    split at h
    · cases h
    · split at h
      · cases h
      · split at h
        · cases h
        · split at h
          · cases h
          · split at h
            · cases h
            · injection h with h'
              rw [← h']

/-- Witness for C3: a two-element series with one success has rate 50. -/
theorem success_rate_exact_and_bounded_witness :
    success_rate_calc ([⟨1, 2, 3, 4, true⟩, ⟨5, 6, 7, 8, false⟩].map toRaw) =
      ((([⟨1, 2, 3, 4, true⟩, ⟨5, 6, 7, 8, false⟩] :
        List InvocationResult).countP (fun m => m.success)) : ℚ) /
        (([⟨1, 2, 3, 4, true⟩, ⟨5, 6, 7, 8, false⟩] :
          List InvocationResult).length : ℚ) * 100 ∧
    0 ≤ success_rate_calc
      ([⟨1, 2, 3, 4, true⟩, ⟨5, 6, 7, 8, false⟩].map toRaw) ∧
    success_rate_calc
      ([⟨1, 2, 3, 4, true⟩, ⟨5, 6, 7, 8, false⟩].map toRaw) ≤ 100 ∧
    (∀ s, benchmark_statistics
        ([⟨1, 2, 3, 4, true⟩, ⟨5, 6, 7, 8, false⟩].map toRaw) = .ok s →
      s.success_rate = success_rate_calc
        ([⟨1, 2, 3, 4, true⟩, ⟨5, 6, 7, 8, false⟩].map toRaw)) :=
  success_rate_exact_and_bounded [⟨1, 2, 3, 4, true⟩, ⟨5, 6, 7, 8, false⟩]
    (by simp)

/-- Counterexample to C6 as stated: on a series with exactly one sample the
source raises StatisticsError (statistics.stdev needs at least two data
points), so no minimum/average/maximum values are produced at all. -/
theorem benchmark_statistics_singleton_raises :
    benchmark_statistics [toRaw ⟨1, 2, 3, 4, true⟩] =
      .error .statisticsError := rfl

/-- C6 (amended): on any metric series with at least two samples,
`benchmark_statistics` succeeds, and for each of the four numeric
dimensions the computed values satisfy minimum ≤ average ≤ maximum.
(With exactly one sample the source raises StatisticsError from the
standard-deviation computation, so the bound can only hold from two
samples up.) -/
theorem min_le_avg_le_max_two_samples (ms : List InvocationResult)
    (h : 2 ≤ ms.length) :
    ∃ s, benchmark_statistics (ms.map toRaw) = .ok s ∧
      (s.initTime.min ≤ s.initTime.avg ∧ s.initTime.avg ≤ s.initTime.max) ∧
      (s.waitTime.min ≤ s.waitTime.avg ∧ s.waitTime.avg ≤ s.waitTime.max) ∧
      (s.duration.min ≤ s.duration.avg ∧ s.duration.avg ≤ s.duration.max) ∧
      (s.client_elapsed_time.min ≤ s.client_elapsed_time.avg ∧
       s.client_elapsed_time.avg ≤ s.client_elapsed_time.max) := by
  have dimOf : ∀ l : List ℚ, l.length = ms.length →
      ∃ ds, dimStats l = .ok ds ∧ ds.min ≤ ds.avg ∧ ds.avg ≤ ds.max := by
    intro l hl
    cases l with
    | nil =>
      rw [← hl] at h
      simp at h
    | cons x xs =>
      obtain ⟨ds, hds, _, _, _, h1, h2⟩ :=
        dimStats_min_avg_max x xs (by rw [hl]; exact h)
      exact ⟨ds, hds, h1, h2⟩
  obtain ⟨d1, hd1, h1a, h1b⟩ :=
    dimOf (ms.map (fun m => m.initTime)) (List.length_map _ _)
  obtain ⟨d2, hd2, h2a, h2b⟩ :=
    dimOf (ms.map (fun m => m.waitTime)) (List.length_map _ _)
  obtain ⟨d3, hd3, h3a, h3b⟩ :=
    dimOf (ms.map (fun m => m.duration)) (List.length_map _ _)
  obtain ⟨d4, hd4, h4a, h4b⟩ :=
    dimOf (ms.map (fun m => m.client_elapsed_time)) (List.length_map _ _)
  have e1 : dimStatsR ((ms.map toRaw).map (fun r => r.initTime)) = .ok d1 := by
    rw [mapRaw_initTime, dimStatsR_map_num, hd1]
  have e2 : dimStatsR ((ms.map toRaw).map (fun r => r.waitTime)) = .ok d2 := by
    rw [mapRaw_waitTime, dimStatsR_map_num, hd2]
  have e3 : dimStatsR ((ms.map toRaw).map (fun r => r.duration)) = .ok d3 := by
    rw [mapRaw_duration, dimStatsR_map_num, hd3]
  have e4 : dimStats ((ms.map toRaw).map (fun r => r.client_elapsed_time)) =
      .ok d4 := by
    rw [mapRaw_cet, hd4]
  have hlen : ¬ (ms.map toRaw).length = 0 := by
    rw [List.length_map]
    omega
  refine ⟨⟨d1, d2, d3, d4, success_rate_calc (ms.map toRaw)⟩, ?_,
    ⟨h1a, h1b⟩, ⟨h2a, h2b⟩, ⟨h3a, h3b⟩, ⟨h4a, h4b⟩⟩
  unfold benchmark_statistics
  rw [if_neg hlen, e1, e2, e3, e4]

/-- Witness for C6 (amended): a concrete two-sample series. -/
theorem min_le_avg_le_max_two_samples_witness :
    ∃ s, benchmark_statistics
        ([⟨1, 2, 3, 4, true⟩, ⟨5, 6, 7, 8, false⟩].map toRaw) = .ok s ∧
      (s.initTime.min ≤ s.initTime.avg ∧ s.initTime.avg ≤ s.initTime.max) ∧
      (s.waitTime.min ≤ s.waitTime.avg ∧ s.waitTime.avg ≤ s.waitTime.max) ∧
      (s.duration.min ≤ s.duration.avg ∧ s.duration.avg ≤ s.duration.max) ∧
      (s.client_elapsed_time.min ≤ s.client_elapsed_time.avg ∧
       s.client_elapsed_time.avg ≤ s.client_elapsed_time.max) :=
  min_le_avg_le_max_two_samples [⟨1, 2, 3, 4, true⟩, ⟨5, 6, 7, 8, false⟩]
    (by simp)

/-- C9: aggregation is order-independent: permuting a non-empty metric
series leaves the whole result of `benchmark_statistics` unchanged — same
average, minimum, maximum and (squared, hence also plain) standard
deviation in every dimension, and same success rate. -/
theorem benchmark_statistics_perm_invariant (ms₁ ms₂ : List InvocationResult)
    (hne : ms₁ ≠ []) (h : ms₁.Perm ms₂) :
    benchmark_statistics (ms₁.map toRaw) =
      benchmark_statistics (ms₂.map toRaw) := by
  have e1 : dimStatsR ((ms₁.map toRaw).map (fun r => r.initTime)) =
      dimStatsR ((ms₂.map toRaw).map (fun r => r.initTime)) := by
    rw [mapRaw_initTime, mapRaw_initTime, dimStatsR_map_num, dimStatsR_map_num]
    exact dimStats_perm _ _ (h.map _)
  have e2 : dimStatsR ((ms₁.map toRaw).map (fun r => r.waitTime)) =
      dimStatsR ((ms₂.map toRaw).map (fun r => r.waitTime)) := by
    rw [mapRaw_waitTime, mapRaw_waitTime, dimStatsR_map_num, dimStatsR_map_num]
    exact dimStats_perm _ _ (h.map _)
  have e3 : dimStatsR ((ms₁.map toRaw).map (fun r => r.duration)) =
      dimStatsR ((ms₂.map toRaw).map (fun r => r.duration)) := by
    rw [mapRaw_duration, mapRaw_duration, dimStatsR_map_num, dimStatsR_map_num]
    exact dimStats_perm _ _ (h.map _)
  have e4 : dimStats ((ms₁.map toRaw).map (fun r => r.client_elapsed_time)) =
      dimStats ((ms₂.map toRaw).map (fun r => r.client_elapsed_time)) := by
    rw [mapRaw_cet, mapRaw_cet]
    exact dimStats_perm _ _ (h.map _)
  have esr : success_rate_calc (ms₁.map toRaw) =
      success_rate_calc (ms₂.map toRaw) := by
    unfold success_rate_calc
    rw [List.Perm.countP_eq _ (h.map toRaw), (h.map toRaw).length_eq]
  have elen : (ms₁.map toRaw).length = (ms₂.map toRaw).length :=
    (h.map toRaw).length_eq
  unfold benchmark_statistics
  rw [elen, e1, e2, e3, e4, esr]

/-- The polling loop, when it completes, completed at the first GET with
status 200, reached only after all earlier GETs returned non-200, with one
`time_precision` sleep after every unsuccessful GET. -/
theorem pollLoop_some_spec (gets : Nat → Response) (url auth : String)
    (tp : ℚ) (fuel : Nat) : ∀ i r,
    (pollLoop gets url auth tp fuel i).2 = some r →
    (gets r).status_code = 200 ∧ i ≤ r ∧
    (∀ j, i ≤ j → j < r → (gets j).status_code ≠ 200) ∧
    (pollLoop gets url auth tp fuel i).1 =
      (List.replicate (r - i)
        [Event.req (getReq url auth), Event.sleep tp]).flatten
        ++ [Event.req (getReq url auth)] := by
  induction fuel with
  | zero => intro i r h; cases h
  | succ n ih =>
    intro i r h
    by_cases h200 : (gets i).status_code = 200
    · have he : pollLoop gets url auth tp (n + 1) i =
          ([.req (getReq url auth)], some i) := by
        rw [pollLoop]
        simp [h200]
      rw [he] at h
      simp only [Option.some.injEq] at h
      subst h
      refine ⟨h200, le_refl _, ?_, ?_⟩
      · intro j hij hjr
        omega
      · rw [he]
        simp
    · have he : pollLoop gets url auth tp (n + 1) i =
          (.req (getReq url auth) :: .sleep tp ::
            (pollLoop gets url auth tp n (i + 1)).1,
           (pollLoop gets url auth tp n (i + 1)).2) := by
        rw [pollLoop]
        simp [h200]
      rw [he] at h
      have h' : (pollLoop gets url auth tp n (i + 1)).2 = some r := h
      obtain ⟨ha, hb, hc, hd⟩ := ih (i + 1) r h'
      refine ⟨ha, by omega, ?_, ?_⟩
      · intro j hij hjr
        by_cases hji : j = i
        · subst hji
          exact h200
        · exact hc j (by omega) hjr
      · rw [he]
        show Event.req (getReq url auth) :: Event.sleep tp ::
          (pollLoop gets url auth tp n (i + 1)).1 = _
        rw [hd]
        have hri : r - i = (r - (i + 1)) + 1 := by omega
        rw [hri, List.replicate_succ]
        simp

/-- If some GET eventually answers 200, the polling loop completes once
given enough fuel. -/
theorem pollLoop_completes (gets : Nat → Response) (url auth : String)
    (tp : ℚ) (n : Nat) : ∀ i, (gets (i + n)).status_code = 200 →
    ∃ r, (pollLoop gets url auth tp (n + 1) i).2 = some r := by
  induction n with
  | zero =>
    intro i h
    refine ⟨i, ?_⟩
    rw [pollLoop]
    simp only [Nat.add_zero] at h
    simp [h]
  | succ m ih =>
    intro i h
    by_cases h200 : (gets i).status_code = 200
    · refine ⟨i, ?_⟩
      rw [pollLoop]
      simp [h200]
    · obtain ⟨r, hr⟩ := ih (i + 1) (by
        have : i + 1 + m = i + (m + 1) := by omega
        rw [this]
        exact h)
      refine ⟨r, ?_⟩
      rw [pollLoop]
      simp [h200]
      exact hr

/-- C7: the non-blocking completion protocol of `async_call` polls the
activation URL with GET requests, sleeping `time_precision` milliseconds
between successive polls, with no upper bound on the number of polls: for
any amount of fuel the loop has completed if and only if some GET response
carried HTTP status 200, and on completion the completing GET is the first
one with status 200. -/
theorem poll_terminates_iff_eventually_ok (gets : Nat → Response)
    (url auth : String) (tp : ℚ) :
    ((∃ fuel r, (pollLoop gets url auth tp fuel 0).2 = some r) ↔
      (∃ n, (gets n).status_code = 200)) ∧
    (∀ fuel r, (pollLoop gets url auth tp fuel 0).2 = some r →
      (gets r).status_code = 200 ∧
      (∀ j, j < r → (gets j).status_code ≠ 200) ∧
      (pollLoop gets url auth tp fuel 0).1 =
        (List.replicate r
          [Event.req (getReq url auth), Event.sleep tp]).flatten
          ++ [Event.req (getReq url auth)]) ∧
    (∀ (ex : Exchange) (cfg : Config) (fuel : Nat) (aid : String),
      activationIdOf ex.post = .ok (.str aid) →
      (async_call ex cfg fuel).1 =
        Event.req ⟨"POST", actionUrl cfg "false", cfg.authorization,
          some cfg.payload⟩ ::
        (pollLoop ex.gets (cfg.apihost ++ "/namespaces/_/activations/" ++ aid)
          cfg.authorization cfg.time_precision fuel 0).1) := by
  refine ⟨⟨?_, ?_⟩, ?_, ?_⟩
  · rintro ⟨fuel, r, hr⟩
    exact ⟨r, (pollLoop_some_spec gets url auth tp fuel 0 r hr).1⟩
  · rintro ⟨n, hn⟩
    obtain ⟨r, hr⟩ := pollLoop_completes gets url auth tp n 0 (by simpa using hn)
    exact ⟨n + 1, r, hr⟩
  · intro fuel r h
    obtain ⟨ha, _, hc, hd⟩ := pollLoop_some_spec gets url auth tp fuel 0 r h
    exact ⟨ha, fun j hj => hc j (Nat.zero_le j) hj, by simpa using hd⟩
  · intro ex cfg fuel aid h
    unfold async_call
    rw [h]
    cases hp : (pollLoop ex.gets
        (cfg.apihost ++ "/namespaces/_/activations/" ++ aid)
        cfg.authorization cfg.time_precision fuel 0).2 <;> simp [hp]

/-- Witness for C7: with an activation that completes on the third GET, ten
units of fuel complete at poll index 2, and the trace shows two GET+sleep
rounds followed by the completing GET. -/
theorem poll_terminates_iff_eventually_ok_witness :
    (pollLoop getsC7 "u" "a" 5 10 0).1 =
      (List.replicate 2 [Event.req (getReq "u" "a"), Event.sleep 5]).flatten
        ++ [Event.req (getReq "u" "a")] :=
  ((poll_terminates_iff_eventually_ok getsC7 "u" "a" 5).2.1 10 2 rfl).2.2

theorem extract_metrics_time_limit (resp : Response) (cfg : Config)
    (t : Int) :
    extract_metrics resp { cfg with time_limit := t } =
      extract_metrics resp cfg := by
  cases cfg
  rfl

theorem bench_single_time_limit (ex : Exchange) (cfg : Config) (fuel : Nat)
    (t : Int) :
    bench_single_invocations ex { cfg with time_limit := t } fuel =
      bench_single_invocations ex cfg fuel := by
  cases cfg
  rfl

theorem warmupLoop_time_limit (env : Nat → Exchange) (cfg : Config)
    (fuel : Nat) (t : Int) (n : Nat) : ∀ k,
    warmupLoop env { cfg with time_limit := t } fuel n k =
      warmupLoop env cfg fuel n k := by
  induction n with
  | zero => intro k; rfl
  | succ m ih =>
    intro k
    simp only [warmupLoop]
    simp only [bench_single_time_limit, ih]

theorem measureLoop_time_limit (env : Nat → Exchange) (cfg : Config)
    (fuel : Nat) (t : Int) (n : Nat) : ∀ k,
    measureLoop env { cfg with time_limit := t } fuel n k =
      measureLoop env cfg fuel n k := by
  induction n with
  | zero => intro k; rfl
  | succ m ih =>
    intro k
    simp only [measureLoop]
    simp only [bench_single_time_limit, ih]

theorem runsLoop_time_limit (env : Nat → Exchange) (cfg : Config)
    (fuel : Nat) (t : Int) (n : Nat) : ∀ k,
    runsLoop env { cfg with time_limit := t } fuel n k =
      runsLoop env cfg fuel n k := by
  induction n with
  | zero => intro k; rfl
  | succ m ih =>
    intro k
    simp only [runsLoop]
    simp only [measureLoop_time_limit, ih]

theorem collectAll_time_limit (env : Nat → Exchange) (cfg : Config)
    (fuel : Nat) (t : Int) :
    collectAll env { cfg with time_limit := t } fuel =
      collectAll env cfg fuel := by
  unfold collectAll
  simp only [warmupLoop_time_limit, runsLoop_time_limit]

/-- C8: the configured `time_limit` never influences the benchmark: on the
same transport oracle, two configurations differing only in `time_limit`
make `run_benchmark` issue the same requests and sleeps (the same event
trace, hence the same number of polls) and produce the identical metric
series and aggregate statistics. -/
theorem time_limit_never_influences (env : Nat → Exchange) (cfg : Config)
    (fuel : Nat) (t : Int) :
    run_benchmark env { cfg with time_limit := t } fuel =
      run_benchmark env cfg fuel := by
  unfold run_benchmark
  rw [collectAll_time_limit]

/-- The warmup pass advances the attempt counter by exactly the number of
warmup invocations and appends nothing. -/
theorem warmupLoop_ok_spec (env : Nat → Exchange) (cfg : Config)
    (fuel : Nat) (n : Nat) : ∀ k tr k',
    warmupLoop env cfg fuel n k = (tr, .ok k') → k' = k + n := by
  induction n with
  | zero =>
    intro k tr k' h
    simp only [warmupLoop, Prod.mk.injEq] at h
    obtain ⟨-, h2⟩ := h
    cases h2
    omega
  | succ m ih =>
    intro k tr k' h
    simp only [warmupLoop] at h
    generalize hb : bench_single_invocations (env k) cfg fuel = sb at h
    obtain ⟨tb, rb⟩ := sb
    cases rb with
    | ok a =>
      generalize hw : warmupLoop env cfg fuel m (k + 1) = sw at h
      obtain ⟨tw, rw1⟩ := sw
      simp only [Prod.mk.injEq] at h
      obtain ⟨-, h2⟩ := h
      subst h2
      have := ih (k + 1) tw k' hw
      omega
    | raise e =>
      simp only [Prod.mk.injEq] at h
      cases h.2
    | diverge =>
      simp only [Prod.mk.injEq] at h
      cases h.2

/-- One measurement run collects exactly `n` results, the i-th being the
successful extraction of attempt `k + i`. -/
theorem measureLoop_spec (env : Nat → Exchange) (cfg : Config) (fuel : Nat)
    (n : Nat) : ∀ k tr ms k',
    measureLoop env cfg fuel n k = (tr, .ok (ms, k')) →
    k' = k + n ∧ ms.length = n ∧
    (∀ i, i < n → ∃ m,
      (bench_single_invocations (env (k + i)) cfg fuel).2 = .ok m ∧
      ms[i]? = some m) := by
  induction n with
  | zero =>
    intro k tr ms k' h
    simp only [measureLoop, Prod.mk.injEq] at h
    obtain ⟨-, h2⟩ := h
    cases h2
    refine ⟨by omega, rfl, ?_⟩
    intro i hi
    omega
  | succ n ih =>
    intro k tr ms k' h
    simp only [measureLoop] at h
    split at h
    · rename_i tb mm heq
      split at h
      · rename_i tr2 p heq2
        obtain ⟨ms2, k2⟩ := p
        simp only [Prod.mk.injEq, PResult.ok.injEq] at h
        obtain ⟨-, h2, h3⟩ := h
        subst h2
        obtain ⟨hk, hlen, hidx⟩ := ih (k + 1) tr2 ms2 k2 heq2
        refine ⟨by omega, by simp [hlen], ?_⟩
        intro i hi
        cases i with
        | zero =>
          refine ⟨mm, ?_, by simp⟩
          rw [Nat.add_zero, heq]
        | succ j =>
          obtain ⟨m, hm1, hm2⟩ := hidx j (by omega)
          refine ⟨m, ?_, ?_⟩
          · have hkj : k + (j + 1) = (k + 1) + j := by omega
            rw [hkj]
            exact hm1
          · simpa using hm2
      · simp only [Prod.mk.injEq] at h
        cases h.2
      · simp only [Prod.mk.injEq] at h
        cases h.2
    · simp only [Prod.mk.injEq] at h
      cases h.2
    · simp only [Prod.mk.injEq] at h
      cases h.2

/-- The run loop concatenates the per-run slices: it collects exactly
`n × num_invocations` results, the i-th being the successful extraction of
attempt `k + i`. -/
theorem runsLoop_spec (env : Nat → Exchange) (cfg : Config) (fuel : Nat)
    (n : Nat) : ∀ k tr ms k',
    runsLoop env cfg fuel n k = (tr, .ok (ms, k')) →
    k' = k + n * cfg.num_invocations ∧
    ms.length = n * cfg.num_invocations ∧
    (∀ i, i < n * cfg.num_invocations → ∃ m,
      (bench_single_invocations (env (k + i)) cfg fuel).2 = .ok m ∧
      ms[i]? = some m) := by
  induction n with
  | zero =>
    intro k tr ms k' h
    simp only [runsLoop, Prod.mk.injEq] at h
    obtain ⟨-, h2⟩ := h
    cases h2
    refine ⟨by simp, by simp, ?_⟩
    intro i hi
    simp at hi
  | succ n ih =>
    intro k tr ms k' h
    simp only [runsLoop] at h
    split at h
    · rename_i tm p heq
      obtain ⟨ms1, k1⟩ := p
      split at h
      · rename_i tr2 q heq2
        obtain ⟨ms2, k2⟩ := q
        simp only [Prod.mk.injEq, PResult.ok.injEq] at h
        obtain ⟨-, h2, h3⟩ := h
        subst h2
        obtain ⟨hk1, hlen1, hidx1⟩ :=
          measureLoop_spec env cfg fuel cfg.num_invocations k tm ms1 k1 heq
        obtain ⟨hk2, hlen2, hidx2⟩ := ih k1 tr2 ms2 k2 heq2
        have hmul : (n + 1) * cfg.num_invocations =
            cfg.num_invocations + n * cfg.num_invocations := by ring
        refine ⟨?_, ?_, ?_⟩
        · rw [hmul, ← Nat.add_assoc, ← hk1, ← h3]
          exact hk2
        · rw [List.length_append, hlen1, hlen2, hmul]
        · intro i hi
          by_cases hiN : i < cfg.num_invocations
          · obtain ⟨m, hm1, hm2⟩ := hidx1 i hiN
            refine ⟨m, hm1, ?_⟩
            rw [List.getElem?_append, if_pos (by rw [hlen1]; exact hiN)]
            exact hm2
          · have hle : cfg.num_invocations ≤ i := Nat.le_of_not_lt hiN
            have hj : i - cfg.num_invocations < n * cfg.num_invocations := by
              rw [hmul] at hi
              omega
            obtain ⟨m, hm1, hm2⟩ := hidx2 (i - cfg.num_invocations) hj
            refine ⟨m, ?_, ?_⟩
            · have hki : k + i = k1 + (i - cfg.num_invocations) := by
                rw [hk1]
                omega
              rw [hki]
              exact hm1
            · rw [List.getElem?_append_right (by rw [hlen1]; exact hle),
                hlen1]
              exact hm2
      · simp only [Prod.mk.injEq] at h
        cases h.2
      · simp only [Prod.mk.injEq] at h
        cases h.2
    · simp only [Prod.mk.injEq] at h
      cases h.2
    · simp only [Prod.mk.injEq] at h
      cases h.2

/-- The complete collection phase: warmup results are dropped, the series
holds exactly the measured results of attempts `warmup_invocations + i`. -/
theorem collectAll_spec (env : Nat → Exchange) (cfg : Config) (fuel : Nat)
    (tr : List Event) (ms : List RawMetrics) (k : Nat)
    (h : collectAll env cfg fuel = (tr, .ok (ms, k))) :
    ms.length = cfg.num_runs * cfg.num_invocations ∧
    (∀ i, i < cfg.num_runs * cfg.num_invocations → ∃ m,
      (bench_single_invocations (env (cfg.warmup_invocations + i)) cfg fuel).2
        = .ok m ∧ ms[i]? = some m) := by
  unfold collectAll at h
  split at h
  · rename_i tw k0 heqw
    split at h
    · rename_i tr2 rr heqr
      have hk0 : k0 = cfg.warmup_invocations := by
        have := warmupLoop_ok_spec env cfg fuel cfg.warmup_invocations 0 tw k0
          heqw
        omega
      subst hk0
      simp only [Prod.mk.injEq] at h
      obtain ⟨-, h2⟩ := h
      subst h2
      obtain ⟨hk, hlen, hidx⟩ :=
        runsLoop_spec env cfg fuel cfg.num_runs cfg.warmup_invocations tr2 ms
          k heqr
      exact ⟨hlen, hidx⟩
  · simp only [Prod.mk.injEq] at h
    cases h.2
  · simp only [Prod.mk.injEq] at h
    cases h.2

/-- C4: whenever the collection phase completes, the metric series handed to
the aggregator holds exactly num_runs × num_invocations results, the i-th
being the extraction of invocation attempt warmup_invocations + i — hence in
temporal invocation order across runs, with no warmup attempt (the attempts
with indices below warmup_invocations) ever contributing an entry, whatever
the value of warmup_invocations; `run_benchmark` then passes exactly this
series to `benchmark_statistics`. -/
theorem run_benchmark_series_count_order (env : Nat → Exchange)
    (cfg : Config) (fuel : Nat) (all : List RawMetrics) (k : Nat)
    (h : (collectAll env cfg fuel).2 = .ok (all, k)) :
    all.length = cfg.num_runs * cfg.num_invocations ∧
    (∀ i, i < cfg.num_runs * cfg.num_invocations → ∃ m,
      (bench_single_invocations (env (cfg.warmup_invocations + i)) cfg fuel).2
        = .ok m ∧ all[i]? = some m) ∧
    run_benchmark env cfg fuel = ((collectAll env cfg fuel).1,
      match benchmark_statistics all with
      | .ok s => .ok (all, s)
      | .error e => .raise e) := by
  have hpair : collectAll env cfg fuel =
      ((collectAll env cfg fuel).1, .ok (all, k)) := by
    rw [← h]
  obtain ⟨hlen, hidx⟩ := collectAll_spec env cfg fuel _ all k hpair
  refine ⟨hlen, hidx, ?_⟩
  unfold run_benchmark
  rw [hpair]

/-- Witness for C4: with a stub transport answering every blocking POST with
a fixed successful body, two runs of one invocation after one warmup attempt
collect exactly two results, each the extraction of a post-warmup attempt. -/
theorem run_benchmark_series_count_order_witness :
    ([⟨.num 0, .num 0, .num 10, 5, .bool true⟩,
      ⟨.num 0, .num 0, .num 10, 5, .bool true⟩] : List RawMetrics).length =
      cfgC4.num_runs * cfgC4.num_invocations ∧
    (∀ i, i < cfgC4.num_runs * cfgC4.num_invocations → ∃ m,
      (bench_single_invocations ((fun _ => exC4) (cfgC4.warmup_invocations + i))
          cfgC4 1).2 = .ok m ∧
      ([⟨.num 0, .num 0, .num 10, 5, .bool true⟩,
        ⟨.num 0, .num 0, .num 10, 5, .bool true⟩] :
          List RawMetrics)[i]? = some m) :=
  ⟨(run_benchmark_series_count_order (fun _ => exC4) cfgC4 1
      [⟨.num 0, .num 0, .num 10, 5, .bool true⟩,
       ⟨.num 0, .num 0, .num 10, 5, .bool true⟩] 3 rfl).1,
   (run_benchmark_series_count_order (fun _ => exC4) cfgC4 1
      [⟨.num 0, .num 0, .num 10, 5, .bool true⟩,
       ⟨.num 0, .num 0, .num 10, 5, .bool true⟩] 3 rfl).2.1⟩

/-- Witness for C9: swapping the two elements of a concrete series leaves
the statistics unchanged. -/
theorem benchmark_statistics_perm_invariant_witness :
    benchmark_statistics
        ([⟨1, 2, 3, 4, true⟩, ⟨5, 6, 7, 8, false⟩].map toRaw) =
      benchmark_statistics
        ([⟨5, 6, 7, 8, false⟩, ⟨1, 2, 3, 4, true⟩].map toRaw) :=
  benchmark_statistics_perm_invariant
    [⟨1, 2, 3, 4, true⟩, ⟨5, 6, 7, 8, false⟩]
    [⟨5, 6, 7, 8, false⟩, ⟨1, 2, 3, 4, true⟩]
    (by simp)
    (List.Perm.swap _ _ _)

end OWBench
